import Mathlib

set_option linter.unusedSectionVars false

/-!
# Shallow embedding of `src/plonk/verifier.rs` (`Proof::verify`)

The verifier is generic over a curve `C`; its scalar field is modelled by an
abstract field `F`, its base field by an abstract type `B`, curve points by an
abstract type `G` with the two group operations the verifier uses, and the two
Fiat-Shamir hashers by abstract state types `σb`/`σs` with their operations.
Rust panics (`unwrap`, `expect`, out-of-range indexing) are modelled by `none`:
a run of `verify` either produces `some b` (the function returns the boolean
`b`) or `none` (the process aborts).
-/

namespace Plonk

/-- Modelled from the spec: the gate constraint expression tree, "an ordered
list of gate expressions (each a tree over {fixed-evaluation leaf,
advice-evaluation leaf, addition, multiplication, scalar multiplication})".
The concrete `Expression` enum lives outside the verifier source file. -/
inductive Expression (F : Type) where
  | fixed (index : Nat)
  | advice (index : Nat)
  | sum (a b : Expression F)
  | product (a b : Expression F)
  | scaled (a : Expression F) (scalar : F)

/-- Modelled from the spec: the recursive expression evaluator with
leaf-resolution callbacks ("evaluate the expression tree, leaves resolved via
direct indexing into the advice/fixed evaluation arrays — out-of-range index is
a fatal error").  The closures supplied by `verify` index into the proof's
evaluation arrays, so leaf resolution is fallible; interior nodes are the field
operations `a + b`, `a * b`, `a * scalar` exactly as the closures at
`verifier.rs:51-53` supply them. -/
def Expression.evaluate {F : Type} [Field F]
    (fixedF adviceF : Nat → Option F) : Expression F → Option F
  | .fixed i => fixedF i
  | .advice i => adviceF i
  | .sum a b =>
    match a.evaluate fixedF adviceF, b.evaluate fixedF adviceF with
    | some x, some y => some (x + y)
    | _, _ => none
  | .product a b =>
    match a.evaluate fixedF adviceF, b.evaluate fixedF adviceF with
    | some x, some y => some (x * y)
    | _, _ => none
  | .scaled a s =>
    match a.evaluate fixedF adviceF with
    | some x => some (x * s)
    | none => none

/-- The proof object (`Proof<C>`), with the fields `verify` reads.  `O` is the
opaque opening-proof type consumed by `params.verify_proof`. -/
structure Proof (F G O : Type) where
  advice_commitments : List G
  h_commitments : List G
  advice_evals_x : List F
  fixed_evals_x : List F
  h_evals_x : List F
  q_evals : List F
  f_commitment : G
  opening : O

/-- The circuit metadata (`srs.meta`): gate list, advice / fixed query lists of
`(wire index, rotation)` pairs, and the `query_rows` map from rotation to
accumulator-column index (a `BTreeMap` in Rust; modelled as its entry list,
iterated in list order). -/
structure ConstraintMeta (F : Type) where
  gates : List (Expression F)
  advice_queries : List (Nat × Int)
  fixed_queries : List (Nat × Int)
  query_rows : List (Int × Nat)

/-- Modelled from the spec: "an evaluation domain descriptor exposing the
primitive root of unity and its inverse" (`srs.domain.get_omega()` /
`get_omega_inv()` live outside the verifier source file). -/
structure Domain (F : Type) where
  omega : F
  omega_inv : F

/-- The verification key (`SRS<C>`): metadata, fixed-wire commitments and the
evaluation domain. -/
structure SRS (F G : Type) where
  meta : ConstraintMeta F
  fixed_commitments : List G
  domain : Domain F

/-- Global parameters (`Params<C>`): the domain size `n`.  The
`verify_proof` capability is passed to `verify` separately as the abstract
function `vp`. -/
structure Params where
  n : Nat

/-- The curve-point operations the verifier uses: `+=` (point addition) and
`*=` (scalar multiplication).  `to_projective` / `to_affine` are conversions
between two representations of the same group and are modelled as the
identity. -/
structure GroupOps (F G : Type) where
  add : G → G → G
  smul : G → F → G

/-- The external transcript / field-conversion capabilities: the two hashers
(`HBase` over `B` with state `σb`, `HScalar` over `F` with state `σs`),
`hash_point` (fallible: fails on the identity point, `verifier.rs:17-18`),
the challenge map `chal` modelling
`get_challenge_scalar(Challenge(squeeze().get_lower_128()))`, and
`scalarToBase` modelling `C::Base::from_bytes(scalar.to_bytes())` (fallible:
`from_bytes` returns `CtOption`). -/
structure TranscriptOps (F B G σb σs : Type) where
  bOne : B
  initB : B → σb
  absorbB : σb → B → σb
  squeezeB : σb → B × σb
  initS : F → σs
  absorbS : σs → F → σs
  squeezeS : σs → F × σs
  hashPoint : σb → G → Option σb
  chal : B → F
  scalarToBase : F → Option B

variable {F B G σb σs O : Type}

/-- Rust slice indexing `xs[i]` returns the element when `i` is in range; an
out-of-range index panics, modelled by `none`. -/
def listGet? {α : Type} : List α → Nat → Option α
  | [], _ => none
  | a :: _, 0 => some a
  | _ :: l, n + 1 => listGet? l n

/-- `verifier.rs:16-19` and `23-25`: absorb a list of curve points into the
base transcript via `hash_point`; a point at infinity aborts
(`.expect("proof cannot contain points at infinity")`). -/
def absorbPoints (T : TranscriptOps F B G σb σs) : σb → List G → Option σb
  | st, [] => some st
  | st, c :: cs =>
    match T.hashPoint st c with
    | some st' => absorbPoints T st' cs
    | none => none

/-- Squeeze the base transcript and map the output to a scalar-field
challenge (`get_challenge_scalar(Challenge(transcript.squeeze().get_lower_128()))`). -/
def squeezeChal (T : TranscriptOps F B G σb σs) (st : σb) : F × σb :=
  (T.chal (T.squeezeB st).1, (T.squeezeB st).2)

/-- `verifier.rs:31-41` and `161-163`: absorb a list of scalars into the
scalar transcript. -/
def absorbScalars (T : TranscriptOps F B G σb σs) : σs → List F → σs
  | st, [] => st
  | st, e :: es => absorbScalars T (T.absorbS st e) es

/-- `verifier.rs:73-75` and `165-167`: squeeze the scalar transcript, convert
the output to a base-field element (`C::Base::from_bytes(..).unwrap()`, which
aborts on decode failure) and absorb it into the base transcript. -/
def crossAbsorb (T : TranscriptOps F B G σb σs) (t : σb) (s : σs) :
    Option (σb × σs) :=
  match T.scalarToBase (T.squeezeS s).1 with
  | some b => some (T.absorbB t b, (T.squeezeS s).2)
  | none => none

variable [Field F] [DecidableEq F]

/-- `Field::invert(..).unwrap()`: inversion aborts on zero. -/
def invertOpt (x : F) : Option F :=
  if x = 0 then none else some x⁻¹

/-- `verifier.rs:44-57`: the gate loop.  `h_eval *= x_2; h_eval += evaluation`
for each gate in the listed order, starting from the accumulator `acc`
(zero at the top-level call). -/
def gateSum (fixedF adviceF : Nat → Option F) (x2 : F) :
    List (Expression F) → F → Option F
  | [], acc => some acc
  | g :: gs, acc =>
    match g.evaluate fixedF adviceF with
    | some e => gateSum fixedF adviceF x2 gs (acc * x2 + e)
    | none => none

/-- `verifier.rs:62-67`: the reconstruction loop for the expected quotient
value, carrying the running accumulator and the running power `cur` of
`xn`. -/
def expectedGo (xn : F) : List F → F → F → F
  | [], acc, _cur => acc
  | e :: es, acc, cur => expectedGo xn es (acc + cur * e) (cur * xn)

/-- `verifier.rs:62-67`: `expected_h_eval = Σ h_evals_x[i] * xn^i`, computed
with a running power starting from `(0, 1)`. -/
def expectedHEval (evals : List F) (xn : F) : F :=
  expectedGo xn evals 0 1

/-- `verifier.rs:44-71` (the pure part): evaluate the gates at `x2`, divide by
`x_3^n - 1` (aborting if that inverts zero), and compare with the
reconstructed quotient evaluation.  Returns the boolean of the comparison at
line 69. -/
def identityCheck (p : Proof F G O) (srs : SRS F G) (n : Nat) (x2 x3 : F) :
    Option Bool :=
  match gateSum (fun i => listGet? p.fixed_evals_x i)
      (fun i => listGet? p.advice_evals_x i) x2 srs.meta.gates 0 with
  | none => none
  | some hev =>
    match invertOpt (x3 ^ n - 1) with
    | none => none
    | some inv =>
      some (decide (hev * inv = expectedHEval p.h_evals_x (x3 ^ n)))

/-- `verifier.rs:14-41`: everything up to (and including) the scalar-transcript
absorption of the three evaluation lists.  Produces `(x_2, x_3, base transcript
state, scalar transcript state)`. -/
def stage1 (T : TranscriptOps F B G σb σs) (p : Proof F G O) :
    Option (F × F × σb × σs) :=
  match absorbPoints T (T.initB T.bOne) p.advice_commitments with
  | none => none
  | some t1 =>
    match absorbPoints T (squeezeChal T t1).2 p.h_commitments with
    | none => none
    | some t3 =>
      some ((squeezeChal T t1).1, (squeezeChal T t3).1, (squeezeChal T t3).2,
        absorbScalars T (absorbScalars T
          (absorbScalars T (T.initS 1) p.advice_evals_x) p.fixed_evals_x)
          p.h_evals_x)

/-- One step of the same-point merge (`verifier.rs:86-97`, identically at
103-113 and 120-130): if the slot at `row` is unseeded, seed it with the new
`(commitment, eval)`; otherwise fold the new contribution in with challenge
`x_4`.  Indexing out of range aborts. -/
def qUpdate (Gr : GroupOps F G) (x4 : F)
    (st : List (Option G) × List F) (row : Nat) (c : G) (e : F) :
    Option (List (Option G) × List F) :=
  match listGet? st.1 row, listGet? st.2 row with
  | some none, some _ => some (st.1.set row (some c), st.2.set row e)
  | some (some g), some ev =>
    some (st.1.set row (some (Gr.add (Gr.smul g x4) c)),
      st.2.set row (ev * x4 + e))
  | _, _ => none

/-- `verifier.rs:83-84, 88-89`: resolve one advice query: look the rotation up
in `query_rows` (`.unwrap()`), and index the advice commitment by wire and the
advice evaluation by query position. -/
def resolveAdviceEntry (p : Proof F G O) (srs : SRS F G)
    (iq : Nat × (Nat × Int)) : Option (Nat × G × F) :=
  match srs.meta.query_rows.lookup iq.2.2,
      listGet? p.advice_commitments iq.2.1,
      listGet? p.advice_evals_x iq.1 with
  | some row, some c, some e => some (row, c, e)
  | _, _, _ => none

/-- `verifier.rs:100-105`: resolve one fixed query (commitment from
`srs.fixed_commitments`, evaluation from `fixed_evals_x`). -/
def resolveFixedEntry (p : Proof F G O) (srs : SRS F G)
    (iq : Nat × (Nat × Int)) : Option (Nat × G × F) :=
  match srs.meta.query_rows.lookup iq.2.2,
      listGet? srs.fixed_commitments iq.2.1,
      listGet? p.fixed_evals_x iq.1 with
  | some row, some c, some e => some (row, c, e)
  | _, _, _ => none

/-- `verifier.rs:116-122`: resolve one quotient-chunk query: the row for
rotation `0` (`query_rows.get(&0).unwrap()`) with the zipped
`(h_commitment, h_eval)` pair. -/
def resolveHEntry (srs : SRS F G) (ce : G × F) : Option (Nat × G × F) :=
  match srs.meta.query_rows.lookup (0 : Int) with
  | some row => some (row, ce.1, ce.2)
  | none => none

/-- The common shape of the three merge loops at `verifier.rs:83-131`: resolve
each query in listed order and fold it into the accumulator state with
`qUpdate`. -/
def mergeLoop (Gr : GroupOps F G) (x4 : F) {α : Type}
    (resolve : α → Option (Nat × G × F)) :
    List α → List (Option G) × List F → Option (List (Option G) × List F)
  | [], st => some st
  | a :: l, st =>
    match resolve a with
    | none => none
    | some rce =>
      match qUpdate Gr x4 st rce.1 rce.2.1 rce.2.2 with
      | none => none
      | some st' => mergeLoop Gr x4 resolve l st'

/-- `verifier.rs:79-132`: Stage-A same-point merging.  The accumulator arrays
start as `vec![None; query_rows.len()]` and `vec![0; query_rows.len()]`; the
advice queries are processed first in listed order, then the fixed queries,
then the quotient-chunk queries. -/
def stageA (Gr : GroupOps F G) (x4 : F) (p : Proof F G O) (srs : SRS F G) :
    Option (List (Option G) × List F) :=
  match mergeLoop Gr x4 (resolveAdviceEntry p srs)
      srs.meta.advice_queries.enum
      (List.replicate srs.meta.query_rows.length none,
       List.replicate srs.meta.query_rows.length 0) with
  | none => none
  | some st1 =>
    match mergeLoop Gr x4 (resolveFixedEntry p srs)
        srs.meta.fixed_queries.enum st1 with
    | none => none
    | some st2 =>
      mergeLoop Gr x4 (resolveHEntry srs) (p.h_commitments.zip p.h_evals_x) st2

/-- `verifier.rs:145-153`: the absolute evaluation point of a query row:
`x_3 * omega^row` for a non-negative rotation, `x_3 * omega_inv^|row|` for a
negative one. -/
def rowPoint (x3 : F) (dom : Domain F) (row : Int) : F :=
  if 0 ≤ row then x3 * dom.omega ^ row.toNat
  else x3 * dom.omega_inv ^ row.natAbs

/-- `verifier.rs:142-159`: the divided-difference loop computing `f_eval`:
for each `(row, col)` entry of `query_rows` in order,
`f_eval = f_eval * x_5 + (q_evals_proof[col] - q_evals[col]) / (x_6 - point)`.
Indexing out of range or inverting zero aborts. -/
def fEvalGo (x3 x5 x6 : F) (p : Proof F G O) (dom : Domain F) (qe : List F) :
    List (Int × Nat) → F → Option F
  | [], acc => some acc
  | rc :: l, acc =>
    match listGet? p.q_evals rc.2, listGet? qe rc.2 with
    | some ev0, some qev =>
      match invertOpt (x6 - rowPoint x3 dom rc.1) with
      | some inv => fEvalGo x3 x5 x6 p dom qe l (acc * x5 + (ev0 - qev) * inv)
      | none => none
    | _, _ => none

/-- `verifier.rs:171-177`: the final `x_7` fold over the `query_rows` entries:
`f_commitment = f_commitment * x_7 + q_commitments[col].unwrap()` (aborting on
an unseeded slot) and `f_eval = f_eval * x_7 + q_evals_proof[col]`. -/
def finalFoldGo (Gr : GroupOps F G) (x7 : F) (p : Proof F G O)
    (qc : List (Option G)) : List (Int × Nat) → G → F → Option (G × F)
  | [], fc, fe => some (fc, fe)
  | rc :: l, fc, fe =>
    match listGet? qc rc.2, listGet? p.q_evals rc.2 with
    | some (some g), some ev =>
      finalFoldGo Gr x7 p qc l (Gr.add (Gr.smul fc x7) g) (fe * x7 + ev)
    | _, _ => none

/-- `verifier.rs:73-177`: the whole tail of `verify` after the identity check
passed: cross-absorb the scalar transcript, derive `x_4`, run the Stage-A
merge, derive `x_5`, absorb `f_commitment`, derive `x_6`, compute `f_eval`,
absorb the per-row claimed evaluations and cross-absorb, derive `x_7` and run
the final fold.  Produces the arguments `verify` hands to
`params.verify_proof`: the transcript, `x_6`, the folded commitment and the
folded evaluation. -/
def verifyTail (T : TranscriptOps F B G σb σs) (Gr : GroupOps F G)
    (p : Proof F G O) (srs : SRS F G) (x3 : F) (t4 : σb) (s3 : σs) :
    Option (σb × F × G × F) :=
  match crossAbsorb T t4 s3 with
  | none => none
  | some ts =>
    match stageA Gr (squeezeChal T ts.1).1 p srs with
    | none => none
    | some qst =>
      match T.hashPoint (squeezeChal T (squeezeChal T ts.1).2).2
          p.f_commitment with
      | none => none
      | some t8 =>
        match fEvalGo x3 (squeezeChal T (squeezeChal T ts.1).2).1
            (squeezeChal T t8).1 p srs.domain qst.2 srs.meta.query_rows 0 with
        | none => none
        | some fe0 =>
          match crossAbsorb T (squeezeChal T t8).2
              (absorbScalars T ts.2 p.q_evals) with
          | none => none
          | some ts2 =>
            match finalFoldGo Gr (squeezeChal T ts2.1).1 p qst.1
                srs.meta.query_rows p.f_commitment fe0 with
            | none => none
            | some fcfe =>
              some ((squeezeChal T ts2.1).2, (squeezeChal T t8).1,
                fcfe.1, fcfe.2)

/-- `Proof::verify` (`verifier.rs:8-186`).  `vp` is the external
`params.verify_proof` capability; `some b` models a normal return of `b`,
`none` models a panic. -/
def Proof.verify (T : TranscriptOps F B G σb σs) (Gr : GroupOps F G)
    (vp : O → σb → F → G → F → Bool) (p : Proof F G O) (params : Params)
    (srs : SRS F G) : Option Bool :=
  match stage1 T p with
  | none => none
  | some a =>
    match identityCheck p srs params.n a.1 a.2.1 with
    | none => none
    | some ok =>
      if ok then
        match verifyTail T Gr p srs a.2.1 a.2.2.1 a.2.2.2 with
        | none => none
        | some r => some (vp p.opening r.1 r.2.1 r.2.2.1 r.2.2.2)
      else some false

/-- The base-transcript state just before the `x_4` squeeze
(`verifier.rs:14-75`): it depends only on the proof's commitments and
evaluation lists, through `stage1` and the cross-absorption. -/
def baseStateBeforeX4 (T : TranscriptOps F B G σb σs) (p : Proof F G O) :
    Option σb :=
  match stage1 T p with
  | none => none
  | some a =>
    match crossAbsorb T a.2.2.1 a.2.2.2 with
    | none => none
    | some ts => some ts.1

/-- The instrumented challenge sequence `(x_2, x_3, x_4, x_5, x_6, x_7)` of a
run of `verify`, derived by the same pipeline; `none` when the run aborts or
returns early at the identity check before deriving all six. -/
def challenges (T : TranscriptOps F B G σb σs) (Gr : GroupOps F G)
    (p : Proof F G O) (params : Params) (srs : SRS F G) :
    Option (F × F × F × F × F × F) :=
  match stage1 T p with
  | none => none
  | some a =>
    match identityCheck p srs params.n a.1 a.2.1 with
    | none => none
    | some ok =>
      if ok then
        match crossAbsorb T a.2.2.1 a.2.2.2 with
        | none => none
        | some ts =>
          match stageA Gr (squeezeChal T ts.1).1 p srs with
          | none => none
          | some qst =>
            match T.hashPoint (squeezeChal T (squeezeChal T ts.1).2).2
                p.f_commitment with
            | none => none
            | some t8 =>
              match fEvalGo a.2.1 (squeezeChal T (squeezeChal T ts.1).2).1
                  (squeezeChal T t8).1 p srs.domain qst.2
                  srs.meta.query_rows 0 with
              | none => none
              | some _fe0 =>
                match crossAbsorb T (squeezeChal T t8).2
                    (absorbScalars T ts.2 p.q_evals) with
                | none => none
                | some ts2 =>
                  some (a.1, a.2.1, (squeezeChal T ts.1).1,
                    (squeezeChal T (squeezeChal T ts.1).2).1,
                    (squeezeChal T t8).1, (squeezeChal T ts2.1).1)
      else none

/-!
## A concrete executable instantiation

Scalar field, base field, curve group and hasher states are all the field
with five elements, realised as `Fin 5` with an explicit inverse table so
that every operation reduces in the kernel; the hashers are toy
deterministic sponges (absorb adds, squeeze returns the state and increments
it), `hash_point` fails exactly on the group identity `0` (the point at
infinity), and the opening verifier accepts everything.  These serve as
concrete inputs for evaluating the embedded `verify`. -/

instance : Field (Fin 5) :=
  { (inferInstance : CommRing (Fin 5)) with
    inv := fun a => match a with
      | 0 => 0
      | 1 => 1
      | 2 => 3
      | 3 => 2
      | 4 => 4
    div := fun a b => a * match b with
      | 0 => 0
      | 1 => 1
      | 2 => 3
      | 3 => 2
      | 4 => 4
    div_eq_mul_inv := fun _ _ => rfl
    nnqsmul := _
    qsmul := _
    exists_pair_ne := ⟨0, 1, by decide⟩
    mul_inv_cancel := by decide
    inv_zero := by decide }

/-- Concrete transcript capabilities over `Fin 5`. -/
def cT : TranscriptOps (Fin 5) (Fin 5) (Fin 5) (Fin 5) (Fin 5) where
  bOne := 1
  initB := id
  absorbB := fun st v => st + v
  squeezeB := fun st => (st, st + 1)
  initS := id
  absorbS := fun st v => st + v
  squeezeS := fun st => (st, st + 1)
  hashPoint := fun st g => if g = 0 then none else some (st + g)
  chal := id
  scalarToBase := fun x => some x

/-- Concrete group operations: the additive group of `Fin 5` with scalar
multiplication given by field multiplication. -/
def cGr : GroupOps (Fin 5) (Fin 5) where
  add := fun a b => a + b
  smul := fun g s => g * s

/-- A concrete opening verifier that accepts every opening. -/
def cVp : Unit → Fin 5 → Fin 5 → Fin 5 → Fin 5 → Bool :=
  fun _ _ _ _ _ => true

/-- A concrete opening verifier that rejects every opening. -/
def cVpF : Unit → Fin 5 → Fin 5 → Fin 5 → Fin 5 → Bool :=
  fun _ _ _ _ _ => false

/-- The empty proof: no commitments, no evaluations, `f_commitment = 1`. -/
def cProofE : Proof (Fin 5) (Fin 5) Unit :=
  ⟨[], [], [], [], [], [], 1, ()⟩

/-- The empty circuit: no gates, no queries, domain descriptor
`(omega, omega_inv) = (2, 3)` (a primitive 4th root of unity pair). -/
def cSrsE : SRS (Fin 5) (Fin 5) :=
  ⟨⟨[], [], [], []⟩, [], ⟨2, 3⟩⟩

/-- Parameters with `n = 3` (mismatched with the order-4 domain of `cSrsE`). -/
def cParams3 : Params := ⟨3⟩

/-- Parameters with `n = 4`. -/
def cParams4 : Params := ⟨4⟩

/-- A proof whose first advice commitment is the identity point `0`. -/
def cProofBad : Proof (Fin 5) (Fin 5) Unit :=
  ⟨[0], [], [], [], [], [], 1, ()⟩

/-- A proof with one advice commitment `3`, its evaluation `2`, and one
per-row claimed evaluation `4`. -/
def cProofQ : Proof (Fin 5) (Fin 5) Unit :=
  ⟨[3], [], [2], [], [], [4], 1, ()⟩

/-- A circuit with a single advice query (wire 0, rotation 0) and a single
query row. -/
def cSrsQ : SRS (Fin 5) (Fin 5) :=
  ⟨⟨[], [(0, 0)], [], [(0, 0)]⟩, [], ⟨2, 3⟩⟩

/-- A circuit with two gates reading advice wire 0, one advice query and one
query row. -/
def cSrsG : SRS (Fin 5) (Fin 5) :=
  ⟨⟨[Expression.advice 0, Expression.advice 0], [(0, 0)], [], [(0, 0)]⟩,
   [], ⟨2, 3⟩⟩

/-- A proof with one quotient-chunk evaluation but no queries contributing to
the single query row; its identity check fails. -/
def cProofU : Proof (Fin 5) (Fin 5) Unit :=
  ⟨[], [], [], [], [1], [], 1, ()⟩

/-- A circuit with a single query row and no queries at all. -/
def cSrsU : SRS (Fin 5) (Fin 5) :=
  ⟨⟨[], [], [], [(0, 0)]⟩, [], ⟨2, 3⟩⟩

/-- A circuit whose only gate reads advice wire 7, out of range of every
proof evaluation array used with it. -/
def cSrsBadGate : SRS (Fin 5) (Fin 5) :=
  ⟨⟨[Expression.advice 7], [], [], []⟩, [], ⟨2, 3⟩⟩

/-- Concrete transcript capabilities whose scalar-to-base byte decode always
fails (`from_bytes` returning no element). -/
def cTD : TranscriptOps (Fin 5) (Fin 5) (Fin 5) (Fin 5) (Fin 5) where
  bOne := 1
  initB := id
  absorbB := fun st v => st + v
  squeezeB := fun st => (st, st + 1)
  initS := id
  absorbS := fun st v => st + v
  squeezeS := fun st => (st, st + 1)
  hashPoint := fun st g => if g = 0 then none else some (st + g)
  chal := id
  scalarToBase := fun _ => none

/-!
## Specification-side definitions for the Stage-A merge

`resolveAdvice` / `resolveFixed` / `resolveH` name the sequences of resolved
`(row, commitment, evaluation)` contributions the three merge loops process,
in their processed order; `contribsAt` selects the contributions of one row;
`mergeSpec` is the accumulation rule exactly as the specification words it. -/

/-- Resolve a whole query list, failing if any entry fails. -/
def resolveAll {α : Type} (resolve : α → Option (Nat × G × F)) :
    List α → Option (List (Nat × G × F))
  | [] => some []
  | a :: l =>
    match resolve a with
    | none => none
    | some rce =>
      match resolveAll resolve l with
      | none => none
      | some rl => some (rce :: rl)

/-- The resolved advice contributions, in listed order. -/
def resolveAdvice (p : Proof F G O) (srs : SRS F G) :
    Option (List (Nat × G × F)) :=
  resolveAll (resolveAdviceEntry p srs) srs.meta.advice_queries.enum

/-- The resolved fixed contributions, in listed order. -/
def resolveFixed (p : Proof F G O) (srs : SRS F G) :
    Option (List (Nat × G × F)) :=
  resolveAll (resolveFixedEntry p srs) srs.meta.fixed_queries.enum

/-- The resolved quotient-chunk contributions, in listed order. -/
def resolveH (p : Proof F G O) (srs : SRS F G) :
    Option (List (Nat × G × F)) :=
  resolveAll (resolveHEntry srs) (p.h_commitments.zip p.h_evals_x)

/-- The `(commitment, evaluation)` contributions targeted at accumulator
column `col`, in processed order. -/
def contribsAt (col : Nat) (l : List (Nat × G × F)) : List (G × F) :=
  l.filterMap fun rce => if rce.1 = col then some (rce.2.1, rce.2.2) else none

/-- Sequential processing of a resolved contribution list through
`qUpdate`. -/
def processList (Gr : GroupOps F G) (x4 : F) :
    List (Nat × G × F) → List (Option G) × List F →
    Option (List (Option G) × List F)
  | [], st => some st
  | rce :: l, st =>
    match qUpdate Gr x4 st rce.1 rce.2.1 rce.2.2 with
    | none => none
    | some st' => processList Gr x4 l st'

/-- Extend a single accumulator pair by a list of contributions: an unseeded
pair is seeded by the first contribution; a seeded pair `(g, ev)` absorbs
`(c, e)` as `(g * x_4 + c, ev * x_4 + e)`. -/
def extendMerge (Gr : GroupOps F G) (x4 : F) :
    Option G × F → List (G × F) → Option G × F
  | s, [] => s
  | s, ce :: l =>
    extendMerge Gr x4
      (match s.1 with
       | none => (some ce.1, ce.2)
       | some g => (some (Gr.add (Gr.smul g x4) ce.1), s.2 * x4 + ce.2)) l

/-- The specification's Stage-A rule for one row: "on first contribution to a
row, seed `(commitment, evaluation)` directly; on each subsequent
contribution, update `commitment = commitment * x_4 + new_commitment`,
`evaluation = evaluation * x_4 + new_evaluation`"; a row without
contributions keeps the unseeded `(none, 0)`. -/
def mergeSpec (Gr : GroupOps F G) (x4 : F) : List (G × F) → Option G × F
  | [] => (none, 0)
  | ce :: l =>
    (fun r => (some r.1, r.2))
      (l.foldl
        (fun acc ce' => (Gr.add (Gr.smul acc.1 x4) ce'.1, acc.2 * x4 + ce'.2))
        ce)

/-!
## Lemmas and claim theorems
-/

/-- The running-power reconstruction loop computes, from any starting
accumulator and power, the accumulator plus the power-weighted sum of the
list. -/
theorem expectedGo_eq (xn : F) :
    ∀ (l : List F) (acc cur : F),
      expectedGo xn l acc cur =
        acc + cur * ∑ i in Finset.range l.length, l.getD i 0 * xn ^ i := by
  intro l
  induction l with
  | nil => intro acc cur; simp [expectedGo]
  | cons e tl ih =>
    intro acc cur
    rw [expectedGo, ih, List.length_cons, Finset.sum_range_succ']
    simp only [List.getD_cons_succ, List.getD_cons_zero, pow_succ, pow_zero]
    have h : ∑ i in Finset.range tl.length, tl.getD i 0 * (xn ^ i * xn) =
        (∑ i in Finset.range tl.length, tl.getD i 0 * xn ^ i) * xn := by
      rw [Finset.sum_mul]
      exact Finset.sum_congr rfl fun i _ => by ring
    rw [h]
    ring

/-- The reconstruction loop from zero with power one is exactly the
power-weighted sum of the chunk evaluations. -/
theorem expectedHEval_eq (evals : List F) (xn : F) :
    expectedHEval evals xn =
      ∑ i in Finset.range evals.length, evals.getD i 0 * xn ^ i := by
  show expectedGo xn evals 0 1 = _
  rw [expectedGo_eq]
  ring

/-- C2: the quotient identity check divides the gate sum by `x_3^n - 1`
(with `n = params.n`) and compares it with the reconstruction of the
quotient-chunk evaluations at base `x_3^n`: the reconstructed value is
exactly `Σ_i c_i * (x_3^n)^i`. -/
theorem identityCheck_quotient_reconstruction (p : Proof F G O)
    (srs : SRS F G) (params : Params) (x2 x3 hev : F) (ok : Bool)
    (hg : gateSum (fun i => listGet? p.fixed_evals_x i)
      (fun i => listGet? p.advice_evals_x i) x2 srs.meta.gates 0 = some hev)
    (hc : identityCheck p srs params.n x2 x3 = some ok) :
    x3 ^ params.n - 1 ≠ 0 ∧
    (ok = true ↔ hev / (x3 ^ params.n - 1) =
      ∑ i in Finset.range p.h_evals_x.length,
        p.h_evals_x.getD i 0 * (x3 ^ params.n) ^ i) := by
  unfold identityCheck at hc
  rw [hg] at hc
  unfold invertOpt at hc
  by_cases hz : x3 ^ params.n - 1 = 0
  · rw [if_pos hz] at hc
    exact absurd hc (by simp)
  · rw [if_neg hz] at hc
    refine ⟨hz, ?_⟩
    simp only [Option.some.injEq] at hc
    rw [← hc, decide_eq_true_eq, expectedHEval_eq, div_eq_mul_inv]

/-- Witness for C2 at a concrete input: gates empty, one quotient chunk
evaluation `1`, challenges `x_2 = 1`, `x_3 = 2`, `n = 3`; the check computes
`0 / 2 ≠ 1` and returns `false`. -/
theorem identityCheck_quotient_reconstruction_inst :
    (gateSum (fun i => listGet? cProofU.fixed_evals_x i)
      (fun i => listGet? cProofU.advice_evals_x i) 1 cSrsU.meta.gates 0 =
        some 0) ∧
    (identityCheck cProofU cSrsU cParams3.n 1 2 = some false) ∧
    ((2 : Fin 5) ^ cParams3.n - 1 ≠ 0 ∧
     (false = true ↔ (0 : Fin 5) / ((2 : Fin 5) ^ cParams3.n - 1) =
       ∑ i in Finset.range cProofU.h_evals_x.length,
         cProofU.h_evals_x.getD i 0 * ((2 : Fin 5) ^ cParams3.n) ^ i)) :=
  ⟨by decide, by decide,
    identityCheck_quotient_reconstruction cProofU cSrsU cParams3 1 2 0 false
      (by decide) (by decide)⟩

/-- The gate loop is the Horner fold, in `x_2`, of the individually evaluated
gate expressions, from any starting accumulator. -/
theorem gateSum_eq_foldl (fx adv : Nat → Option F) (x2 : F) :
    ∀ (gs : List (Expression F)) (vals : List F) (acc s : F),
      gs.mapM (Expression.evaluate fx adv) = some vals →
      gateSum fx adv x2 gs acc = some s →
      s = vals.foldl (fun a v => a * x2 + v) acc := by
  intro gs
  induction gs with
  | nil =>
    intro vals acc s hm hs
    simp only [List.mapM_nil, pure, Option.some.injEq] at hm
    simp only [gateSum, Option.some.injEq] at hs
    rw [← hm, ← hs]
    rfl
  | cons g tl ih =>
    intro vals acc s hm hs
    rw [List.mapM_cons] at hm
    rw [gateSum] at hs
    split at hs
    · rename_i e he
      rw [he] at hm
      cases hm2 : tl.mapM (Expression.evaluate fx adv) with
      | none => rw [hm2] at hm; simp at hm
      | some vs =>
        rw [hm2] at hm
        simp at hm
        subst hm
        rw [List.foldl_cons]
        exact ih vs (acc * x2 + e) s hm2 hs
    · simp at hs

/-- C4: the gate-evaluation sum is computed by Horner's rule in `x_2` over
the SRS's gates in listed order, each gate evaluated by the expression-tree
evaluator whose leaves index directly into the proof's `fixed_evals_x` and
`advice_evals_x` arrays. -/
theorem gateSum_horner_rule (p : Proof F G O) (srs : SRS F G) (x2 s : F)
    (vals : List F)
    (hm : srs.meta.gates.mapM (Expression.evaluate
      (fun i => listGet? p.fixed_evals_x i)
      (fun i => listGet? p.advice_evals_x i)) = some vals)
    (hs : gateSum (fun i => listGet? p.fixed_evals_x i)
      (fun i => listGet? p.advice_evals_x i) x2 srs.meta.gates 0 = some s) :
    s = vals.foldl (fun a v => a * x2 + v) 0 :=
  gateSum_eq_foldl _ _ x2 srs.meta.gates vals 0 s hm hs

/-- Witness for C4 at a concrete input: two gates reading advice wire 0
(value `2`), `x_2 = 4`: the Horner fold gives `(0*4+2)*4+2 = 0` in
`Fin 5`. -/
theorem gateSum_horner_rule_inst :
    (cSrsG.meta.gates.mapM (Expression.evaluate
      (fun i => listGet? cProofQ.fixed_evals_x i)
      (fun i => listGet? cProofQ.advice_evals_x i)) = some [2, 2]) ∧
    (gateSum (fun i => listGet? cProofQ.fixed_evals_x i)
      (fun i => listGet? cProofQ.advice_evals_x i) 4 cSrsG.meta.gates 0 =
        some 0) ∧
    (0 : Fin 5) = [(2 : Fin 5), 2].foldl (fun a v => a * 4 + v) 0 :=
  ⟨by decide, by decide,
    gateSum_horner_rule cProofQ cSrsG 4 0 [2, 2] (by decide) (by decide)⟩

/-- C8: challenge derivation is a deterministic function of the proof, the
parameters and the SRS: two runs on equal inputs derive equal challenge
sequences `x_2, ..., x_7`; there is no hidden source of randomness. -/
theorem challenges_deterministic (T : TranscriptOps F B G σb σs)
    (Gr : GroupOps F G) (p p' : Proof F G O) (params params' : Params)
    (srs srs' : SRS F G) (hp : p = p') (hpar : params = params')
    (hsrs : srs = srs') :
    challenges T Gr p params srs = challenges T Gr p' params' srs' := by
  subst hp
  subst hpar
  subst hsrs
  rfl

/-- Witness for C8 at a concrete input. -/
theorem challenges_deterministic_inst :
    challenges cT cGr cProofQ cParams3 cSrsQ =
      challenges cT cGr cProofQ cParams3 cSrsQ :=
  challenges_deterministic cT cGr cProofQ cProofQ cParams3 cParams3
    cSrsQ cSrsQ rfl rfl rfl

/-- C10: nothing is absorbed into either transcript between the `x_4` squeeze
and the `x_5` squeeze: `x_4` is the challenge of the squeeze of the base
state before `x_4` (a function of the proof's commitments and evaluations
only), and `x_5` is the challenge of the immediately following squeeze of
that same state — the Stage-A accumulators contribute nothing. -/
theorem x5_immediate_after_x4 (T : TranscriptOps F B G σb σs)
    (Gr : GroupOps F G) (p : Proof F G O) (params : Params) (srs : SRS F G)
    (t5 : σb) (x2 x3 x4 x5 x6 x7 : F)
    (hb : baseStateBeforeX4 T p = some t5)
    (hc : challenges T Gr p params srs = some (x2, x3, x4, x5, x6, x7)) :
    x4 = T.chal (T.squeezeB t5).1 ∧
    x5 = T.chal (T.squeezeB (T.squeezeB t5).2).1 := by
  unfold challenges at hc
  cases h1 : stage1 T p with
  | none => simp [h1] at hc
  | some a =>
    simp only [h1] at hc
    cases h2 : identityCheck p srs params.n a.1 a.2.1 with
    | none => simp [h2] at hc
    | some ok =>
      simp only [h2] at hc
      cases ok with
      | false => simp at hc
      | true =>
        rw [if_pos rfl] at hc
        cases h3 : crossAbsorb T a.2.2.1 a.2.2.2 with
        | none => simp [h3] at hc
        | some ts =>
          simp only [h3] at hc
          cases h4 : stageA Gr (squeezeChal T ts.1).1 p srs with
          | none => simp [h4] at hc
          | some qst =>
            simp only [h4] at hc
            cases h5 : T.hashPoint (squeezeChal T (squeezeChal T ts.1).2).2
                p.f_commitment with
            | none => simp [h5] at hc
            | some t8 =>
              simp only [h5] at hc
              cases h6 : fEvalGo a.2.1 (squeezeChal T (squeezeChal T ts.1).2).1
                  (squeezeChal T t8).1 p srs.domain qst.2
                  srs.meta.query_rows 0 with
              | none => simp [h6] at hc
              | some fe0 =>
                simp only [h6] at hc
                cases h7 : crossAbsorb T (squeezeChal T t8).2
                    (absorbScalars T ts.2 p.q_evals) with
                | none => simp [h7] at hc
                | some ts2 =>
                  simp only [h7, Option.some.injEq, Prod.mk.injEq] at hc
                  unfold baseStateBeforeX4 at hb
                  simp only [h1, h3, Option.some.injEq] at hb
                  obtain ⟨-, -, h4e, h5e, -, -⟩ := hc
                  subst hb
                  constructor
                  · rw [← h4e]; rfl
                  · rw [← h5e]; rfl

/-- Witness for C10 at a concrete input: the base state before `x_4` is `4`,
`x_4 = chal (squeeze 4).1 = 4` and `x_5 = chal (squeeze (squeeze 4).2).1 =
0`. -/
theorem x5_immediate_after_x4_inst :
    (baseStateBeforeX4 cT cProofQ = some 4 ∧
     challenges cT cGr cProofQ cParams3 cSrsQ = some (4, 0, 4, 0, 2, 1)) ∧
    ((4 : Fin 5) = cT.chal (cT.squeezeB 4).1 ∧
     (0 : Fin 5) = cT.chal (cT.squeezeB (cT.squeezeB 4).2).1) :=
  ⟨⟨by decide, by decide⟩,
    x5_immediate_after_x4 cT cGr cProofQ cParams3 cSrsQ 4 4 0 4 0 2 1
      (by decide) (by decide)⟩

/-- C5 counterexample: at a concrete proof whose only advice commitment is
the identity point, `verify` aborts (`none`, modelling the Rust panic in
`hash_point`'s `expect`): no `Malformed` error value is produced — the
function's return type has no error variant at all. -/
theorem verify_identity_point_aborts_cex :
    cProofBad.advice_commitments = (0 : Fin 5) :: [] ∧
    Proof.verify cT cGr cVp cProofBad cParams3 cSrsE = none :=
  ⟨rfl, by decide⟩

/-- Absorbing a point list containing a point on which `hash_point` always
fails (its failure depends only on the point being the identity, not on the
transcript state) aborts, wherever the bad point sits in the list. -/
theorem absorbPoints_mem_none (T : TranscriptOps F B G σb σs) (c : G)
    (hbad : ∀ st : σb, T.hashPoint st c = none) :
    ∀ (cs : List G) (st : σb), c ∈ cs → absorbPoints T st cs = none := by
  intro cs
  induction cs with
  | nil => intro st h; exact absurd h (List.not_mem_nil c)
  | cons x xs ih =>
    intro st h
    rcases List.mem_cons.mp h with h1 | h1
    · subst h1
      simp [absorbPoints, hbad st]
    · cases hx : T.hashPoint st x with
      | none => simp [absorbPoints, hx]
      | some st' =>
        simp only [absorbPoints, hx]
        exact ih st' h1

/-- The gate loop aborts whenever any gate in the list — at any position —
fails to evaluate. -/
theorem gateSum_mem_none (fx adv : Nat → Option F) (x2 : F)
    (g : Expression F) (hg : Expression.evaluate fx adv g = none) :
    ∀ (gs : List (Expression F)) (acc : F), g ∈ gs →
      gateSum fx adv x2 gs acc = none := by
  intro gs
  induction gs with
  | nil => intro acc h; exact absurd h (List.not_mem_nil g)
  | cons x xs ih =>
    intro acc h
    rcases List.mem_cons.mp h with h1 | h1
    · subst h1
      simp [gateSum, hg]
    · cases hx : Expression.evaluate fx adv x with
      | none => simp [gateSum, hx]
      | some e =>
        simp only [gateSum, hx]
        exact ih (acc * x2 + e) h1

/-- C5 (amended): on structurally malformed input, `verify` aborts (Rust
panic, modelled `none`) instead of surfacing any error value — there is no
`Malformed` variant in its `bool` return type — and in particular never
returns a silent `true`.  Concretely: an identity-point commitment anywhere
among the advice or quotient-chunk commitments aborts unconditionally; an
identity-point `f_commitment` aborts whenever the identity check passed (it
is only absorbed then, `verifier.rs:136`); a gate whose leaf indexes out of
range of the evaluation arrays, at any position in the gate list, aborts; a
byte-decode failure at either cross-absorption (`verifier.rs:73-74` and
`165-166`) aborts. -/
theorem verify_malformed_aborts :
    (∀ (T : TranscriptOps F B G σb σs) (Gr : GroupOps F G)
        (vp : O → σb → F → G → F → Bool) (p : Proof F G O)
        (params : Params) (srs : SRS F G) (c : G),
        (∀ st : σb, T.hashPoint st c = none) →
        c ∈ p.advice_commitments ∨ c ∈ p.h_commitments →
        Proof.verify T Gr vp p params srs = none) ∧
    (∀ (T : TranscriptOps F B G σb σs) (Gr : GroupOps F G)
        (vp : O → σb → F → G → F → Bool) (p : Proof F G O)
        (params : Params) (srs : SRS F G) (a : F × F × σb × σs),
        stage1 T p = some a →
        identityCheck p srs params.n a.1 a.2.1 = some true →
        (∀ st : σb, T.hashPoint st p.f_commitment = none) →
        Proof.verify T Gr vp p params srs = none) ∧
    (∀ (T : TranscriptOps F B G σb σs) (Gr : GroupOps F G)
        (vp : O → σb → F → G → F → Bool) (p : Proof F G O)
        (params : Params) (srs : SRS F G) (g : Expression F),
        g ∈ srs.meta.gates →
        Expression.evaluate (fun i => listGet? p.fixed_evals_x i)
          (fun i => listGet? p.advice_evals_x i) g = none →
        Proof.verify T Gr vp p params srs = none) ∧
    (∀ (T : TranscriptOps F B G σb σs) (Gr : GroupOps F G)
        (vp : O → σb → F → G → F → Bool) (p : Proof F G O)
        (params : Params) (srs : SRS F G) (a : F × F × σb × σs),
        stage1 T p = some a →
        identityCheck p srs params.n a.1 a.2.1 = some true →
        T.scalarToBase (T.squeezeS a.2.2.2).1 = none →
        Proof.verify T Gr vp p params srs = none) ∧
    (∀ (T : TranscriptOps F B G σb σs) (Gr : GroupOps F G)
        (vp : O → σb → F → G → F → Bool) (p : Proof F G O)
        (params : Params) (srs : SRS F G) (a : F × F × σb × σs)
        (ts : σb × σs) (qst : List (Option G) × List F) (t8 : σb) (fe0 : F),
        stage1 T p = some a →
        identityCheck p srs params.n a.1 a.2.1 = some true →
        crossAbsorb T a.2.2.1 a.2.2.2 = some ts →
        stageA Gr (squeezeChal T ts.1).1 p srs = some qst →
        T.hashPoint (squeezeChal T (squeezeChal T ts.1).2).2 p.f_commitment =
          some t8 →
        fEvalGo a.2.1 (squeezeChal T (squeezeChal T ts.1).2).1
          (squeezeChal T t8).1 p srs.domain qst.2 srs.meta.query_rows 0 =
            some fe0 →
        T.scalarToBase (T.squeezeS (absorbScalars T ts.2 p.q_evals)).1 =
          none →
        Proof.verify T Gr vp p params srs = none) := by
  refine ⟨?_, ?_, ?_, ?_, ?_⟩
  · intro T Gr vp p params srs c hbad hmem
    unfold Proof.verify stage1
    rcases hmem with h | h
    · simp only [absorbPoints_mem_none T c hbad p.advice_commitments
        (T.initB T.bOne) h]
    · cases h1 : absorbPoints T (T.initB T.bOne) p.advice_commitments with
      | none => rfl
      | some t1 =>
        simp only [absorbPoints_mem_none T c hbad p.h_commitments
          (squeezeChal T t1).2 h]
  · intro T Gr vp p params srs a h1 h2 hbad
    unfold Proof.verify
    simp only [h1, h2]
    rw [if_pos trivial]
    have ht : verifyTail T Gr p srs a.2.1 a.2.2.1 a.2.2.2 = none := by
      unfold verifyTail
      cases h3 : crossAbsorb T a.2.2.1 a.2.2.2 with
      | none => rfl
      | some ts =>
        simp only [h3]
        cases h4 : stageA Gr (squeezeChal T ts.1).1 p srs with
        | none => rfl
        | some qst => simp only [h4, hbad]
    rw [ht]
  · intro T Gr vp p params srs g hmem hge
    unfold Proof.verify
    cases h1 : stage1 T p with
    | none => rfl
    | some a =>
      have hg2 : identityCheck p srs params.n a.1 a.2.1 = none := by
        unfold identityCheck
        rw [gateSum_mem_none (fun i => listGet? p.fixed_evals_x i)
          (fun i => listGet? p.advice_evals_x i) a.1 g hge
          srs.meta.gates 0 hmem]
      simp [hg2]
  · intro T Gr vp p params srs a h1 h2 hdec
    unfold Proof.verify
    simp only [h1, h2]
    rw [if_pos trivial]
    have ht : verifyTail T Gr p srs a.2.1 a.2.2.1 a.2.2.2 = none := by
      unfold verifyTail crossAbsorb
      rw [hdec]
    rw [ht]
  · intro T Gr vp p params srs a ts qst t8 fe0 h1 h2 h3 h4 h5 h6 hdec
    unfold Proof.verify
    simp only [h1, h2]
    rw [if_pos trivial]
    have ht : verifyTail T Gr p srs a.2.1 a.2.2.1 a.2.2.2 = none := by
      unfold verifyTail
      simp only [h3, h4, h5, h6]
      unfold crossAbsorb
      rw [hdec]
    rw [ht]

/-- Witness for C5's amended theorem, exercising the identity-point
commitment case, the out-of-range gate leaf case and the byte-decode
failure case at concrete inputs. -/
theorem verify_malformed_aborts_inst :
    ((∀ st : Fin 5, cT.hashPoint st 0 = none) ∧
     (0 : Fin 5) ∈ cProofBad.advice_commitments ∧
     Proof.verify cT cGr cVp cProofBad cParams3 cSrsE = none) ∧
    (Expression.advice 7 ∈ cSrsBadGate.meta.gates ∧
     Expression.evaluate (fun i => listGet? cProofE.fixed_evals_x i)
       (fun i => listGet? cProofE.advice_evals_x i)
       (Expression.advice 7) = none ∧
     Proof.verify cT cGr cVp cProofE cParams3 cSrsBadGate = none) ∧
    (stage1 cTD cProofE = some (1, 2, 3, 1) ∧
     identityCheck cProofE cSrsE cParams3.n 1 2 = some true ∧
     cTD.scalarToBase (cTD.squeezeS 1).1 = none ∧
     Proof.verify cTD cGr cVp cProofE cParams3 cSrsE = none) :=
  ⟨⟨by decide, by decide,
     verify_malformed_aborts.1 cT cGr cVp cProofBad cParams3 cSrsE 0
       (by decide) (Or.inl (by decide))⟩,
   ⟨List.Mem.head _, by decide,
     verify_malformed_aborts.2.2.1 cT cGr cVp cProofE cParams3 cSrsBadGate
       (Expression.advice 7) (List.Mem.head _) (by decide)⟩,
   ⟨by decide, by decide, by decide,
     verify_malformed_aborts.2.2.2.1 cTD cGr cVp cProofE cParams3 cSrsE
       (1, 2, 3, 1) (by decide) (by decide) (by decide)⟩⟩

/-- C6 counterexample: with `n = 4` the concrete run derives `x_3 = 2`, so
the identity-check denominator `x_3^4 - 1` is zero, and `verify` aborts
(`none`, modelling the `invert().unwrap()` panic) instead of returning a
rejecting result. -/
theorem verify_zero_denominator_cex :
    (stage1 cT cProofE).map (fun a => a.2.1 ^ cParams4.n - 1) = some 0 ∧
    Proof.verify cT cGr cVp cProofE cParams4 cSrsE = none :=
  ⟨by decide, by decide⟩

/-- C6 (amended): a zero denominator makes `verify` abort (the Rust
`invert().unwrap()` panic, modelled `none`) rather than return a rejecting
result: if `x_3^n - 1 = 0` the run aborts at the quotient identity check, and
the divided-difference loop aborts whenever `x_6` coincides with the head
query's evaluation point. -/
theorem verify_zero_denominator_aborts :
    (∀ (T : TranscriptOps F B G σb σs) (Gr : GroupOps F G)
        (vp : O → σb → F → G → F → Bool) (p : Proof F G O)
        (params : Params) (srs : SRS F G) (a : F × F × σb × σs) (hev : F),
        stage1 T p = some a →
        gateSum (fun i => listGet? p.fixed_evals_x i)
          (fun i => listGet? p.advice_evals_x i) a.1 srs.meta.gates 0 =
            some hev →
        a.2.1 ^ params.n - 1 = 0 →
        Proof.verify T Gr vp p params srs = none) ∧
    (∀ (x3 x5 x6 : F) (p : Proof F G O) (dom : Domain F) (qe : List F)
        (row : Int) (col : Nat) (l : List (Int × Nat)) (acc : F),
        x6 - rowPoint x3 dom row = 0 →
        fEvalGo x3 x5 x6 p dom qe ((row, col) :: l) acc = none) := by
  constructor
  · intro T Gr vp p params srs a hev h1 hg hz
    unfold Proof.verify
    simp only [h1]
    unfold identityCheck
    rw [hg]
    simp only [invertOpt, hz, if_pos]
  · intro x3 x5 x6 p dom qe row col l acc hz
    simp only [fEvalGo]
    cases hq : listGet? p.q_evals col <;> cases hqe : listGet? qe col <;>
      simp [hq, hqe, invertOpt, hz]

/-- Witness for C6's amended theorem at the concrete `n = 4` input. -/
theorem verify_zero_denominator_aborts_inst :
    (stage1 cT cProofE = some (1, 2, 3, 1) ∧
     gateSum (fun i => listGet? cProofE.fixed_evals_x i)
       (fun i => listGet? cProofE.advice_evals_x i) 1 cSrsE.meta.gates 0 =
         some 0 ∧
     (2 : Fin 5) ^ cParams4.n - 1 = 0) ∧
    Proof.verify cT cGr cVp cProofE cParams4 cSrsE = none :=
  ⟨⟨by decide, by decide, by decide⟩,
    verify_zero_denominator_aborts.1 cT cGr cVp cProofE cParams4 cSrsE
      (1, 2, 3, 1) 0 (by decide) (by decide) (by decide)⟩

/-- C7 counterexample: a `Params.n` inconsistent with the SRS domain (the
domain's root of unity has order 4, `params.n = 3`) is not detected:
`verify` proceeds and returns `some true` instead of rejecting before
challenge derivation. -/
theorem verify_no_domain_check_cex :
    cSrsE.domain.omega ^ cParams3.n ≠ 1 ∧
    Proof.verify cT cGr cVp cProofE cParams3 cSrsE = some true :=
  ⟨by decide, by decide⟩

/-- C7 (amended): `verify` performs no consistency check between `Params.n`
and the SRS domain descriptor: on a concrete input whose domain root of unity
is inconsistent with `params.n`, all six challenges are derived and the run
completes successfully, with `x_3^params.n` used as-is in the quotient
identity. -/
theorem verify_no_domain_check :
    cSrsE.domain.omega ^ cParams3.n ≠ 1 ∧
    challenges cT cGr cProofE cParams3 cSrsE = some (1, 2, 4, 0, 2, 0) ∧
    Proof.verify cT cGr cVp cProofE cParams3 cSrsE = some true :=
  ⟨by decide, by decide, by decide⟩

/-!
### The Stage-A merge invariant
-/

/-- A `listGet?` hit implies the index is within range. -/
theorem lt_of_listGet?_eq_some {α : Type} :
    ∀ {l : List α} {n : Nat} {a : α},
      listGet? l n = some a → n < l.length := by
  intro l
  induction l with
  | nil => intro n a h; cases h
  | cons x xs ih =>
    intro n a h
    cases n with
    | zero => exact Nat.succ_pos _
    | succ m => exact Nat.succ_lt_succ (ih h)

/-- Setting an index then reading it back yields the new value when the index
is in range. -/
theorem listGet?_set_self {α : Type} :
    ∀ (l : List α) (i : Nat) (a : α), i < l.length →
      listGet? (l.set i a) i = some a := by
  intro l
  induction l with
  | nil => intro i a h; cases h
  | cons x xs ih =>
    intro i a h
    cases i with
    | zero => rfl
    | succ m => exact ih m a (Nat.lt_of_succ_lt_succ h)

/-- Setting one index leaves reads at any other index unchanged. -/
theorem listGet?_set_ne {α : Type} :
    ∀ (l : List α) (i j : Nat) (a : α), i ≠ j →
      listGet? (l.set i a) j = listGet? l j := by
  intro l
  induction l with
  | nil => intro i j a _; cases i <;> rfl
  | cons x xs ih =>
    intro i j a h
    cases i with
    | zero =>
      cases j with
      | zero => exact absurd rfl h
      | succ m => rfl
    | succ m =>
      cases j with
      | zero => rfl
      | succ k => exact ih m k a fun hh => h (by rw [hh])

/-- `listGet?` with a default on a replicated list always yields the
replicated element. -/
theorem getD_listGet?_replicate {α : Type} (d : α) :
    ∀ (n col : Nat), (listGet? (List.replicate n d) col).getD d = d := by
  intro n
  induction n with
  | zero => intro col; rfl
  | succ m ih =>
    intro col
    cases col with
    | zero => rfl
    | succ k => exact ih k

/-- Selecting the contributions of one row distributes over cons. -/
theorem contribsAt_cons (col : Nat) (rce : Nat × G × F)
    (l : List (Nat × G × F)) :
    contribsAt col (rce :: l) =
      if rce.1 = col then (rce.2.1, rce.2.2) :: contribsAt col l
      else contribsAt col l := by
  by_cases h : rce.1 = col <;> simp [contribsAt, List.filterMap_cons, h]

/-- One step of `extendMerge`. -/
theorem extendMerge_cons (Gr : GroupOps F G) (x4 : F) (s : Option G × F)
    (ce : G × F) (l : List (G × F)) :
    extendMerge Gr x4 s (ce :: l) =
      extendMerge Gr x4
        (match s.1 with
         | none => (some ce.1, ce.2)
         | some g => (some (Gr.add (Gr.smul g x4) ce.1), s.2 * x4 + ce.2))
        l := rfl

/-- `extendMerge` from a seeded pair is the plain Horner fold. -/
theorem extendMerge_seeded (Gr : GroupOps F G) (x4 : F) :
    ∀ (l : List (G × F)) (g : G) (ev : F),
      extendMerge Gr x4 (some g, ev) l =
        (fun r => (some r.1, r.2))
          (l.foldl (fun acc ce =>
            (Gr.add (Gr.smul acc.1 x4) ce.1, acc.2 * x4 + ce.2)) (g, ev)) := by
  intro l
  induction l with
  | nil => intro g ev; rfl
  | cons ce l ih =>
    intro g ev
    rw [List.foldl_cons]
    exact ih (Gr.add (Gr.smul g x4) ce.1) (ev * x4 + ce.2)

/-- `extendMerge` from the unseeded pair `(none, 0)` is exactly the
specification's merge rule. -/
theorem extendMerge_unseeded (Gr : GroupOps F G) (x4 : F) :
    ∀ l : List (G × F), extendMerge Gr x4 (none, 0) l = mergeSpec Gr x4 l := by
  intro l
  cases l with
  | nil => rfl
  | cons ce l =>
    show extendMerge Gr x4 (some ce.1, ce.2) l = _
    rw [extendMerge_seeded]
    rfl

/-- What one successful `qUpdate` does to the accumulator arrays: lengths are
preserved, the touched row is seeded or Horner-extended according to whether
its slot was unseeded, and every other row is untouched. -/
theorem qUpdate_spec (Gr : GroupOps F G) (x4 : F) (qc : List (Option G))
    (qe : List F) (row : Nat) (c : G) (e : F)
    (st' : List (Option G) × List F)
    (hu : qUpdate Gr x4 (qc, qe) row c e = some st') :
    st'.1.length = qc.length ∧ st'.2.length = qe.length ∧
    ((listGet? qc row).getD none = none →
      (listGet? st'.1 row).getD none = some c ∧ (listGet? st'.2 row).getD 0 = e) ∧
    (∀ g : G, (listGet? qc row).getD none = some g →
      (listGet? st'.1 row).getD none = some (Gr.add (Gr.smul g x4) c) ∧
      (listGet? st'.2 row).getD 0 = (listGet? qe row).getD 0 * x4 + e) ∧
    ∀ col : Nat, col ≠ row →
      listGet? st'.1 col = listGet? qc col ∧ listGet? st'.2 col = listGet? qe col := by
  unfold qUpdate at hu
  cases hslot : listGet? qc row with
  | none => simp [hslot] at hu
  | some slot =>
    cases hev : listGet? qe row with
    | none => simp [hslot, hev] at hu
    | some ev =>
      have hltc : row < qc.length := lt_of_listGet?_eq_some hslot
      have hlte : row < qe.length := lt_of_listGet?_eq_some hev
      cases slot with
      | none =>
        simp only [hslot, hev, Option.some.injEq] at hu
        subst hu
        refine ⟨List.length_set _ _ _, List.length_set _ _ _, ?_, ?_, ?_⟩
        · intro _
          dsimp only
          rw [listGet?_set_self _ _ _ hltc, listGet?_set_self _ _ _ hlte]
          exact ⟨rfl, rfl⟩
        · intro g hg
          simp at hg
        · intro col hne
          exact ⟨listGet?_set_ne _ _ _ _ fun hh => hne hh.symm,
            listGet?_set_ne _ _ _ _ fun hh => hne hh.symm⟩
      | some g0 =>
        simp only [hslot, hev, Option.some.injEq] at hu
        subst hu
        refine ⟨List.length_set _ _ _, List.length_set _ _ _, ?_, ?_, ?_⟩
        · intro hg
          simp at hg
        · intro g hg
          simp only [Option.getD_some, Option.some.injEq] at hg
          subst hg
          dsimp only
          rw [listGet?_set_self _ _ _ hltc, listGet?_set_self _ _ _ hlte]
          exact ⟨rfl, rfl⟩
        · intro col hne
          exact ⟨listGet?_set_ne _ _ _ _ fun hh => hne hh.symm,
            listGet?_set_ne _ _ _ _ fun hh => hne hh.symm⟩

/-- The Stage-A invariant: a successful sequential processing of resolved
contributions preserves the accumulator lengths, and its effect on each
column is `extendMerge` by that column's contributions. -/
theorem processList_spec (Gr : GroupOps F G) (x4 : F) :
    ∀ (l : List (Nat × G × F)) (qc : List (Option G)) (qe : List F)
      (qc' : List (Option G)) (qe' : List F),
      processList Gr x4 l (qc, qe) = some (qc', qe') →
      qc'.length = qc.length ∧ qe'.length = qe.length ∧
      ∀ col : Nat,
        ((listGet? qc' col).getD none, (listGet? qe' col).getD 0) =
          extendMerge Gr x4 ((listGet? qc col).getD none, (listGet? qe col).getD 0)
            (contribsAt col l) := by
  intro l
  induction l with
  | nil =>
    intro qc qe qc' qe' h
    simp only [processList, Option.some.injEq, Prod.mk.injEq] at h
    obtain ⟨hq1, hq2⟩ := h
    subst hq1
    subst hq2
    exact ⟨rfl, rfl, fun col => rfl⟩
  | cons rce l ih =>
    intro qc qe qc' qe' h
    simp only [processList] at h
    cases hu : qUpdate Gr x4 (qc, qe) rce.1 rce.2.1 rce.2.2 with
    | none => simp [hu] at h
    | some st' =>
      simp only [hu] at h
      obtain ⟨qc1, qe1⟩ := st'
      obtain ⟨len1, len2, hseed, hext, hother⟩ :=
        qUpdate_spec Gr x4 qc qe rce.1 rce.2.1 rce.2.2 (qc1, qe1) hu
      obtain ⟨len1', len2', hslots⟩ := ih qc1 qe1 qc' qe' h
      refine ⟨len1'.trans len1, len2'.trans len2, ?_⟩
      intro col
      rw [hslots col, contribsAt_cons]
      by_cases hcol : rce.1 = col
      · subst hcol
        rw [if_pos rfl, extendMerge_cons]
        cases hs : (listGet? qc rce.1).getD none with
        | none =>
          obtain ⟨hc1, he1⟩ := hseed hs
          rw [hc1, he1]
        | some g =>
          obtain ⟨hc1, he1⟩ := hext g hs
          rw [hc1, he1]
      · rw [if_neg hcol]
        obtain ⟨hc1, he1⟩ := hother col fun hh => hcol hh.symm
        rw [hc1, he1]

/-- Concatenation splits sequential processing. -/
theorem processList_append (Gr : GroupOps F G) (x4 : F) :
    ∀ (l1 l2 : List (Nat × G × F)) (st : List (Option G) × List F),
      processList Gr x4 (l1 ++ l2) st =
        match processList Gr x4 l1 st with
        | none => none
        | some st' => processList Gr x4 l2 st' := by
  intro l1
  induction l1 with
  | nil => intro l2 st; rfl
  | cons rce l ih =>
    intro l2 st
    rw [List.cons_append]
    cases hu : qUpdate Gr x4 st rce.1 rce.2.1 rce.2.2 with
    | none => simp [processList, hu]
    | some st' =>
      simp only [processList, hu]
      exact ih l2 st'

/-- Each of the three merge loops is the processing of its resolved
contribution list. -/
theorem mergeLoop_eq (Gr : GroupOps F G) (x4 : F) {α : Type}
    (resolve : α → Option (Nat × G × F)) :
    ∀ (l : List α) (st : List (Option G) × List F),
      mergeLoop Gr x4 resolve l st =
        match resolveAll resolve l with
        | none => none
        | some rl => processList Gr x4 rl st := by
  intro l
  induction l with
  | nil => intro st; rfl
  | cons a l ih =>
    intro st
    cases hr : resolve a with
    | none => simp [mergeLoop, resolveAll, hr]
    | some rce =>
      cases hm : resolveAll resolve l with
      | none =>
        simp only [mergeLoop, resolveAll, hr, hm]
        cases hu : qUpdate Gr x4 st rce.1 rce.2.1 rce.2.2 with
        | none => simp
        | some st' => simp [hu, ih st', hm]
      | some rl =>
        simp only [mergeLoop, resolveAll, hr, hm]
        cases hu : qUpdate Gr x4 st rce.1 rce.2.1 rce.2.2 with
        | none => simp [processList, hu]
        | some st' => simp [processList, hu, ih st', hm]

/-- The Stage-A output, per column: the accumulated pair equals the
specification's merge of that column's contributions, taken from the advice,
fixed and quotient-chunk query lists in that order. -/
theorem stageA_slots (Gr : GroupOps F G) (x4 : F) (p : Proof F G O)
    (srs : SRS F G) (la lf lh : List (Nat × G × F))
    (qc' : List (Option G)) (qe' : List F)
    (hla : resolveAdvice p srs = some la)
    (hlf : resolveFixed p srs = some lf)
    (hlh : resolveH p srs = some lh)
    (hA : stageA Gr x4 p srs = some (qc', qe')) :
    ∀ col : Nat,
      ((listGet? qc' col).getD none, (listGet? qe' col).getD 0) =
        mergeSpec Gr x4 (contribsAt col (la ++ (lf ++ lh))) := by
  unfold resolveAdvice at hla
  unfold resolveFixed at hlf
  unfold resolveH at hlh
  unfold stageA at hA
  simp only [mergeLoop_eq, hla, hlf, hlh] at hA
  cases hp1 : processList Gr x4 la
      (List.replicate srs.meta.query_rows.length none,
       List.replicate srs.meta.query_rows.length 0) with
  | none => simp [hp1] at hA
  | some st1 =>
    simp only [hp1] at hA
    cases hp2 : processList Gr x4 lf st1 with
    | none => simp [hp2] at hA
    | some st2 =>
      simp only [hp2] at hA
      have happ : processList Gr x4 (la ++ (lf ++ lh))
          (List.replicate srs.meta.query_rows.length none,
           List.replicate srs.meta.query_rows.length 0) = some (qc', qe') := by
        simp only [processList_append, hp1, hp2]
        exact hA
      obtain ⟨-, -, hslots⟩ :=
        processList_spec Gr x4 (la ++ (lf ++ lh)) _ _ qc' qe' happ
      intro col
      rw [hslots col, getD_listGet?_replicate, getD_listGet?_replicate,
        extendMerge_unseeded]

/-- C3: Stage-A same-point merging produces, for every accumulator column,
exactly the pair obtained by the specification's running random linear
combination in `x_4` over that column's contributions, processed in the
order: advice queries in listed order, then fixed queries, then
quotient-chunk queries; the first contribution seeds the pair directly and
each later one updates `(commitment, evaluation)` to
`(commitment * x_4 + new, evaluation * x_4 + new)`. -/
theorem stageA_same_point_merge (Gr : GroupOps F G) (x4 : F)
    (p : Proof F G O) (srs : SRS F G) (la lf lh : List (Nat × G × F))
    (qc' : List (Option G)) (qe' : List F)
    (hla : resolveAdvice p srs = some la)
    (hlf : resolveFixed p srs = some lf)
    (hlh : resolveH p srs = some lh)
    (hA : stageA Gr x4 p srs = some (qc', qe')) :
    ∀ col : Nat,
      ((listGet? qc' col).getD none, (listGet? qe' col).getD 0) =
        mergeSpec Gr x4 (contribsAt col (la ++ (lf ++ lh))) :=
  stageA_slots Gr x4 p srs la lf lh qc' qe' hla hlf hlh hA

/-- Witness for C3 at a concrete input: one advice query at row 0 with
commitment `3` and evaluation `2`; the merged pair at column 0 is
`(some 3, 2)`. -/
theorem stageA_same_point_merge_inst :
    (resolveAdvice cProofQ cSrsQ = some [(0, 3, 2)] ∧
     resolveFixed cProofQ cSrsQ = some [] ∧
     resolveH cProofQ cSrsQ = some [] ∧
     stageA cGr 4 cProofQ cSrsQ = some ([some 3], [2])) ∧
    (((listGet? [some (3 : Fin 5)] 0).getD none, ((listGet? [(2 : Fin 5)] 0)).getD 0) =
      mergeSpec cGr 4 (contribsAt 0
        ([((0 : Nat), (3 : Fin 5), (2 : Fin 5))] ++ ([] ++ [])))) :=
  ⟨⟨by decide, by decide, by decide, by decide⟩,
    stageA_same_point_merge cGr 4 cProofQ cSrsQ [(0, 3, 2)] [] []
      [some 3] [2] (by decide) (by decide) (by decide) (by decide) 0⟩

/-- A successful final `x_7` fold requires every listed column's accumulator
slot to be seeded (the Rust `q_commitments[col].as_ref().unwrap()`). -/
theorem finalFoldGo_covers (Gr : GroupOps F G) (x7 : F) (p : Proof F G O)
    (qc : List (Option G)) :
    ∀ (l : List (Int × Nat)) (fc : G) (fe : F) (r : G × F),
      finalFoldGo Gr x7 p qc l fc fe = some r →
      ∀ rc ∈ l, ∃ g, listGet? qc rc.2 = some (some g) := by
  intro l
  induction l with
  | nil => intro fc fe r _ rc hrc; exact absurd hrc (List.not_mem_nil rc)
  | cons rc0 l ih =>
    intro fc fe r h rc hrc
    simp only [finalFoldGo] at h
    cases hq : listGet? qc rc0.2 with
    | none =>
      cases hqe : listGet? p.q_evals rc0.2 <;> simp [hq, hqe] at h
    | some slot =>
      cases slot with
      | none =>
        cases hqe : listGet? p.q_evals rc0.2 <;> simp [hq, hqe] at h
      | some g =>
        cases hqe : listGet? p.q_evals rc0.2 with
        | none => simp [hq, hqe] at h
        | some ev =>
          simp only [hq, hqe] at h
          rcases List.mem_cons.mp hrc with h1 | h1
          · exact ⟨g, by rw [h1]; exact hq⟩
          · exact ih _ _ r h rc h1

/-- C9 counterexample: on a concrete input whose single query row receives no
contribution from any query loop, `verify` still runs to completion (the
identity check fails first and returns `some false`), so completion does not
require every query row to be covered. -/
theorem verify_uncovered_row_completes_cex :
    ((0 : Int), (0 : Nat)) ∈ cSrsU.meta.query_rows ∧
    resolveAdvice cProofU cSrsU = some [] ∧
    resolveFixed cProofU cSrsU = some [] ∧
    resolveH cProofU cSrsU = some [] ∧
    contribsAt 0 (([] : List (Nat × Fin 5 × Fin 5)) ++ ([] ++ [])) = [] ∧
    Proof.verify cT cGr cVp cProofU cParams3 cSrsU = some false :=
  ⟨by decide, by decide, by decide, by decide, rfl, by decide⟩

/-- C9 (amended): when the identity check passes and `verify` still returns a
boolean (so the final `x_7` fold ran), every row index in `query_rows`
received at least one contribution from the advice, fixed or quotient-chunk
query loops; an uncovered row would leave a `None` slot and make the fold's
unwrap abort.  (A run that fails the identity check returns `false` before
the fold and needs no such precondition.) -/
theorem verify_requires_row_contributions (T : TranscriptOps F B G σb σs)
    (Gr : GroupOps F G) (vp : O → σb → F → G → F → Bool) (p : Proof F G O)
    (params : Params) (srs : SRS F G) (a : F × F × σb × σs)
    (la lf lh : List (Nat × G × F)) (b : Bool)
    (h1 : stage1 T p = some a)
    (h2 : identityCheck p srs params.n a.1 a.2.1 = some true)
    (hla : resolveAdvice p srs = some la)
    (hlf : resolveFixed p srs = some lf)
    (hlh : resolveH p srs = some lh)
    (hv : Proof.verify T Gr vp p params srs = some b) :
    ∀ rc ∈ srs.meta.query_rows, contribsAt rc.2 (la ++ (lf ++ lh)) ≠ [] := by
  unfold Proof.verify at hv
  simp only [h1, h2] at hv
  rw [if_pos trivial] at hv
  cases ht : verifyTail T Gr p srs a.2.1 a.2.2.1 a.2.2.2 with
  | none => simp [ht] at hv
  | some r =>
    unfold verifyTail at ht
    cases h3 : crossAbsorb T a.2.2.1 a.2.2.2 with
    | none => simp [h3] at ht
    | some ts =>
      simp only [h3] at ht
      cases h4 : stageA Gr (squeezeChal T ts.1).1 p srs with
      | none => simp [h4] at ht
      | some qst =>
        simp only [h4] at ht
        cases h5 : T.hashPoint (squeezeChal T (squeezeChal T ts.1).2).2
            p.f_commitment with
        | none => simp [h5] at ht
        | some t8 =>
          simp only [h5] at ht
          cases h6 : fEvalGo a.2.1 (squeezeChal T (squeezeChal T ts.1).2).1
              (squeezeChal T t8).1 p srs.domain qst.2
              srs.meta.query_rows 0 with
          | none => simp [h6] at ht
          | some fe0 =>
            simp only [h6] at ht
            cases h7 : crossAbsorb T (squeezeChal T t8).2
                (absorbScalars T ts.2 p.q_evals) with
            | none => simp [h7] at ht
            | some ts2 =>
              simp only [h7] at ht
              cases h8 : finalFoldGo Gr (squeezeChal T ts2.1).1 p qst.1
                  srs.meta.query_rows p.f_commitment fe0 with
              | none => simp [h8] at ht
              | some fcfe =>
                obtain ⟨qc1, qe1⟩ := qst
                intro rc hrc hemp
                obtain ⟨g, hg⟩ := finalFoldGo_covers Gr _ p qc1
                  srs.meta.query_rows p.f_commitment fe0 fcfe h8 rc hrc
                have hs := stageA_slots Gr _ p srs la lf lh qc1 qe1
                  hla hlf hlh h4 rc.2
                rw [hemp, hg] at hs
                simp [mergeSpec] at hs

/-- Witness for C9's amended theorem at the concrete covered input. -/
theorem verify_requires_row_contributions_inst :
    (stage1 cT cProofQ = some (4, 0, 1, 3) ∧
     identityCheck cProofQ cSrsQ cParams3.n 4 0 = some true ∧
     resolveAdvice cProofQ cSrsQ = some [(0, 3, 2)] ∧
     resolveFixed cProofQ cSrsQ = some [] ∧
     resolveH cProofQ cSrsQ = some [] ∧
     Proof.verify cT cGr cVp cProofQ cParams3 cSrsQ = some true) ∧
    contribsAt 0 ([((0 : Nat), (3 : Fin 5), (2 : Fin 5))] ++ ([] ++ [])) ≠
      [] :=
  ⟨⟨by decide, by decide, by decide, by decide, by decide, by decide⟩,
    verify_requires_row_contributions cT cGr cVp cProofQ cParams3 cSrsQ
      (4, 0, 1, 3) [(0, 3, 2)] [] [] true (by decide) (by decide) (by decide)
      (by decide) (by decide) (by decide) (0, 0) (by decide)⟩

/-- C1: when `verify` runs to completion, its boolean is `true` exactly when
the quotient identity check passed and the delegated opening verification
`vp` (the `params.verify_proof` capability) returned `true`; a failed
identity check yields an immediate `false`, independent of the opening
verifier and before any of the tail (query aggregation, further challenge
derivation) is consulted. -/
theorem verify_true_iff_checks (T : TranscriptOps F B G σb σs)
    (Gr : GroupOps F G) (vp vp' : O → σb → F → G → F → Bool)
    (p : Proof F G O) (params : Params) (srs : SRS F G)
    (a : F × F × σb × σs) (ok b : Bool)
    (h1 : stage1 T p = some a)
    (h2 : identityCheck p srs params.n a.1 a.2.1 = some ok)
    (hv : Proof.verify T Gr vp p params srs = some b) :
    (ok = false → b = false ∧
      Proof.verify T Gr vp' p params srs = some false) ∧
    (ok = true → Proof.verify T Gr vp p params srs =
      (verifyTail T Gr p srs a.2.1 a.2.2.1 a.2.2.2).map
        (fun r => vp p.opening r.1 r.2.1 r.2.2.1 r.2.2.2)) ∧
    (b = true ↔ ok = true ∧
      (verifyTail T Gr p srs a.2.1 a.2.2.1 a.2.2.2).map
        (fun r => vp p.opening r.1 r.2.1 r.2.2.1 r.2.2.2) = some true) := by
  unfold Proof.verify at hv
  simp only [h1, h2] at hv
  cases ok with
  | false =>
    rw [if_neg (by simp)] at hv
    simp only [Option.some.injEq] at hv
    subst hv
    refine ⟨fun _ => ⟨rfl, ?_⟩, fun h => absurd h (by simp), ?_⟩
    · unfold Proof.verify
      simp only [h1, h2]
      rw [if_neg (by simp)]
    · constructor
      · intro h; exact absurd h (by simp)
      · rintro ⟨h, -⟩; exact absurd h (by simp)
  | true =>
    rw [if_pos rfl] at hv
    cases ht : verifyTail T Gr p srs a.2.1 a.2.2.1 a.2.2.2 with
    | none => simp [ht] at hv
    | some r =>
      simp only [ht, Option.some.injEq] at hv
      refine ⟨fun h => absurd h (by simp), fun _ => ?_, ?_⟩
      · unfold Proof.verify
        simp only [h1, h2]
        rw [if_pos trivial, ht]
        rfl
      · simp only [ht, Option.map_some', Option.some.injEq]
        rw [hv]
        simp

/-- Witness for C1 at the concrete passing input: the identity check passes
and the run returns exactly the opening verifier's boolean. -/
theorem verify_true_iff_checks_inst :
    (stage1 cT cProofQ = some (4, 0, 1, 3) ∧
     identityCheck cProofQ cSrsQ cParams3.n 4 0 = some true ∧
     Proof.verify cT cGr cVp cProofQ cParams3 cSrsQ = some true) ∧
    ((true = false → true = false ∧
        Proof.verify cT cGr cVpF cProofQ cParams3 cSrsQ = some false) ∧
     (true = true → Proof.verify cT cGr cVp cProofQ cParams3 cSrsQ =
        (verifyTail cT cGr cProofQ cSrsQ 0 1 3).map
          (fun r => cVp cProofQ.opening r.1 r.2.1 r.2.2.1 r.2.2.2)) ∧
     (true = true ↔ true = true ∧
        (verifyTail cT cGr cProofQ cSrsQ 0 1 3).map
          (fun r => cVp cProofQ.opening r.1 r.2.1 r.2.2.1 r.2.2.2) =
            some true)) :=
  ⟨⟨by decide, by decide, by decide⟩,
    verify_true_iff_checks cT cGr cVp cVpF cProofQ cParams3 cSrsQ
      (4, 0, 1, 3) true true (by decide) (by decide) (by decide)⟩

end Plonk
